import Mathlib

/-
Verification of the inventory-movement core of the Stock21 repository
(src/movements/services.py together with the data model in
src/stock/models.py and src/movements/models.py).

Python `Decimal` values are modelled by the exact-decimal type `Dec`
below (integer mantissa over a power-of-ten scale).  All operations the
services perform on decimals (addition, subtraction, multiplication,
division and multiplication by 1000, comparison with zero) are exact in
Python's default decimal context at the magnitudes the data model admits
(10-digit column values), so the exact model is faithful.

The `Decimal` string constructor is modelled at two levels.
`pyDecParse` and `parse_value_br_full` embed the constructor's complete
ASCII grammar — end whitespace stripping, blanket underscore removal,
case-insensitive NaN/sNaN/Infinity literals — together with the
uncaught `decimal.InvalidOperation` that a constructed NaN raises at
the `value <= 0` comparison of parse_value_br (services.py line 94,
outside the `try`).  The movement-service embeddings use the plain
finite fragment (`decParse`, `parse_value_br`); each service theorem
pins the parse outcome of every line it speaks about, and on those
pinned outcomes the fragment agrees with the full constructor.
Non-ASCII numerals and Unicode-only whitespace are outside the model.
-/

namespace Stock21

/-- Ten to the power `n`, as an integer, by structural recursion (kept
kernel-reducible on purpose). -/
def pow10 : Nat → Int
  | 0 => 1
  | n + 1 => 10 * pow10 n

/-- Exact decimal number: the value `m / 10 ^ s`.  Models Python
`decimal.Decimal` for the finite, exact computations the services do. -/
structure Dec where
  m : Int
  s : Nat
deriving DecidableEq

/-- Rational value of an exact decimal. -/
def Dec.toRat (a : Dec) : ℚ := (a.m : ℚ) / 10 ^ a.s

/-- Zero as an exact decimal. -/
def Dec.zero : Dec := ⟨0, 0⟩

/-- Exact decimal addition (common-denominator form). -/
def Dec.add (a b : Dec) : Dec := ⟨a.m * pow10 b.s + b.m * pow10 a.s, a.s + b.s⟩

/-- Exact decimal subtraction. -/
def Dec.sub (a b : Dec) : Dec := ⟨a.m * pow10 b.s - b.m * pow10 a.s, a.s + b.s⟩

/-- Exact decimal multiplication. -/
def Dec.mul (a b : Dec) : Dec := ⟨a.m * b.m, a.s + b.s⟩

/-- Exact division by 1000 (a pure scale shift, exact in decimal). -/
def Dec.div1000 (a : Dec) : Dec := ⟨a.m, a.s + 3⟩

/-- Exact multiplication by 1000. -/
def Dec.mul1000 (a : Dec) : Dec := ⟨a.m * 1000, a.s⟩

/-- Value comparison of exact decimals (cross-multiplied). -/
def Dec.le (a b : Dec) : Prop := a.m * pow10 b.s ≤ b.m * pow10 a.s

/-- Strict value comparison of exact decimals. -/
def Dec.lt (a b : Dec) : Prop := a.m * pow10 b.s < b.m * pow10 a.s

/-- Value equality of exact decimals. -/
def Dec.eqv (a b : Dec) : Prop := a.m * pow10 b.s = b.m * pow10 a.s

instance (a b : Dec) : Decidable (Dec.le a b) := by unfold Dec.le; infer_instance

instance (a b : Dec) : Decidable (Dec.lt a b) := by unfold Dec.lt; infer_instance

instance (a b : Dec) : Decidable (Dec.eqv a b) := by unfold Dec.eqv; infer_instance

/-- Translated error messages of src/movements/services.py (the
`gettext` interpolation is modelled by string concatenation). -/
def invalidValueMsg (name : String) : String := "Insert a valid value to " ++ name

/-- Message raised when a parsed value is not positive. -/
def nonPositiveMsg (name : String) : String := "Enter a value greater than 0 to " ++ name

/-- Message raised when an ingredient's stock cannot cover a sale. -/
def insufficientMsg (name : String) : String :=
  "Insufficient stock for ingredient " ++ name ++ "!"

/-- Message raised by create_inflow when no ingredient is selected. -/
def selectIngredientMsg : String := "Select at least 1 ingredient"

/-- Message raised by create_outflow when no product is selected. -/
def selectProductMsg : String := "Select at least 1 product"

/-- Message raised by format_period on an unparsable date. -/
def invalidDateMsg : String := "Insert a valid date"

/-- Message raised by format_period when start is after end. -/
def negativePeriodMsg : String := "The period cannot be negative."

/-- Message raised by format_period when the range exceeds 30 days. -/
def periodTooLongMsg : String := "The maximum consultation period is 30 days."

/-- Longest prefix of decimal digits of a character list, with the rest. -/
def takeDigits : List Char → List Nat × List Char
  | [] => ([], [])
  | c :: cs =>
    if c.isDigit then
      let r := takeDigits cs
      ((c.toNat - 48) :: r.1, r.2)
    else
      ([], c :: cs)

/-- Natural number denoted by a list of decimal digits. -/
def digitsVal (ds : List Nat) : Nat := ds.foldl (fun a d => 10 * a + d) 0

/-- Optional leading sign of a numeric string. -/
def decSign : List Char → Int × List Char
  | '+' :: cs => (1, cs)
  | '-' :: cs => (-1, cs)
  | cs => (1, cs)

/-- Builds the decimal from a parsed mantissa and an optional exponent
part, mirroring the `[sign] digits [. digits] [E [sign] digits]` grammar
of `decimal.Decimal`. -/
def decFinish (sg : Int) (ip fp : List Nat) (rest : List Char) : Option Dec :=
  let mant : Int := sg * (digitsVal (ip ++ fp) : Int)
  match rest with
  | [] => some ⟨mant, fp.length⟩
  | e :: r =>
    if e = 'e' ∨ e = 'E' then
      let p1 := decSign r
      let p2 := takeDigits p1.2
      if p2.1.isEmpty ∨ ¬ p2.2.isEmpty then none
      else if 0 ≤ p1.1 then some ⟨mant * pow10 (digitsVal p2.1), fp.length⟩
      else some ⟨mant, fp.length + digitsVal p2.1⟩
    else none

/-- Parser for plain finite numeric strings accepted by
`decimal.Decimal`: the fragment without end whitespace, underscores and
NaN/Infinity special values.  The movement-service theorems state their
hypotheses with this fragment, pinning each line's concrete parse
outcome; `pyDecParse` below models the constructor's complete ASCII
grammar and is the subject of the parser claim. -/
def decParse (cs : List Char) : Option Dec :=
  let p1 := decSign cs
  let p2 := takeDigits p1.2
  match p2.2 with
  | '.' :: r =>
    let p3 := takeDigits r
    if p2.1.isEmpty ∧ p3.1.isEmpty then none else decFinish p1.1 p2.1 p3.1 p3.2
  | _ => if p2.1.isEmpty then none else decFinish p1.1 p2.1 [] p2.2

/-- Cleaning step of parse_value_br: `value.replace(".", "").replace(",", ".")`. -/
def cleanBR (v : String) : List Char :=
  (v.toList.filter (fun c => c ≠ '.')).map (fun c => if c = ',' then '.' else c)

/-- Embedding of parse_value_br (src/movements/services.py lines 74-97)
on the plain finite fragment of the constructor grammar, as used by the
movement-service embeddings.  A `none` input models a non-string value,
whose `.replace` call raises `AttributeError` and is answered with the
same invalid-value message.  `parse_value_br_full` below is the
complete embedding, covering whitespace, underscores and special
values, including the uncaught `InvalidOperation` a NaN raises at the
`value <= 0` comparison. -/
def parse_value_br (value : Option String) (name : String) : Option Dec × List String :=
  match value with
  | none => (none, [invalidValueMsg name])
  | some v =>
    match decParse (cleanBR v) with
    | none => (none, [invalidValueMsg name])
    | some d =>
      if Dec.le d Dec.zero then (none, [nonPositiveMsg name]) else (some d, [])

/-- Embedding of convert_measures (src/movements/services.py lines
53-71).  The Python dictionary lookup raises `KeyError` on any pair
outside the table; that is modelled by `none`. -/
def convert_measures (qte : Dec) (origin destiny : String) : Option Dec :=
  match origin, destiny with
  | "g", "kg" => some (Dec.div1000 qte)
  | "kg", "g" => some (Dec.mul1000 qte)
  | "g", "g" => some qte
  | "kg", "kg" => some qte
  | "unit", "unit" => some qte
  | _, _ => none

/-- ASCII whitespace characters the Decimal constructor strips from
both ends of its input (the constructor also strips Unicode-only
whitespace and reads non-ASCII decimal digits; those code points are
outside this ASCII-scoped model). -/
def isPyWs (c : Char) : Bool :=
  c == ' ' || c == '\t' || c == '\n' || c == '\r' || c == '\x0b' || c == '\x0c'

/-- Strips leading and trailing constructor whitespace. -/
def stripWs (cs : List Char) : List Char :=
  ((cs.dropWhile isPyWs).reverse.dropWhile isPyWs).reverse

/-- Value produced by the `decimal.Decimal` constructor: a finite exact
decimal, a NaN, or a signed infinity.  Quiet and signalling NaN of any
sign and payload are collapsed to one `nan` value, because the only
thing parse_value_br does with the constructed value is compare it with
zero, and every NaN form makes that comparison raise
`decimal.InvalidOperation`. -/
inductive PyDec where
  | fin (d : Dec)
  | nan
  | inf (neg : Bool)
deriving DecidableEq

/-- Optional leading sign, as a negativity flag. -/
def pySign : List Char → Bool × List Char
  | '+' :: cs => (false, cs)
  | '-' :: cs => (true, cs)
  | cs => (false, cs)

/-- Special-value literals of the constructor, on lowercased input:
`nan` and `snan` with an optional all-digit payload, and `inf` or
`infinity`. -/
def pySpecial (neg : Bool) : List Char → Option PyDec
  | 'n' :: 'a' :: 'n' :: rest =>
    if rest.all (fun c => c.isDigit) then some PyDec.nan else none
  | 's' :: 'n' :: 'a' :: 'n' :: rest =>
    if rest.all (fun c => c.isDigit) then some PyDec.nan else none
  | 'i' :: 'n' :: 'f' :: rest =>
    if rest.isEmpty ∨ rest = ['i', 'n', 'i', 't', 'y'] then some (PyDec.inf neg)
    else none
  | _ => none

/-- Finite-number grammar of the constructor on lowercased, sign-free
input: `digits [. digits]` or `. digits`, with an optional
`e [sign] digits` exponent. -/
def pyFinite (neg : Bool) (cs : List Char) : Option PyDec :=
  let p2 := takeDigits cs
  match p2.2 with
  | '.' :: r =>
    let p3 := takeDigits r
    if p2.1.isEmpty ∧ p3.1.isEmpty then none
    else (decFinish (if neg then -1 else 1) p2.1 p3.1 p3.2).map PyDec.fin
  | _ =>
    if p2.1.isEmpty then none
    else (decFinish (if neg then -1 else 1) p2.1 [] p2.2).map PyDec.fin

/-- Complete model of the `decimal.Decimal` string constructor on ASCII
input, matching CPython's libmpdec conversion: whitespace is stripped
from both ends, every underscore in the remainder is then ignored
regardless of position, letter case is ignored, and the result is an
optional sign followed by either a special value (NaN, sNaN, Inf,
Infinity) or a finite decimal with optional fraction and exponent. -/
def pyDecParse (cs : List Char) : Option PyDec :=
  let t := ((stripWs cs).filter (fun c => c ≠ '_')).map Char.toLower
  let p := pySign t
  match pySpecial p.1 p.2 with
  | some v => some v
  | none => pyFinite p.1 p.2

/-- Outcome of one parse_value_br call, including the exception path
the function does not catch. -/
inductive PyParse where
  | ret (v : Option PyDec) (errs : List String)
  | raise
deriving DecidableEq

/-- Complete embedding of parse_value_br (src/movements/services.py
lines 74-97) over the full constructor grammar.  The `try` covers only
the cleaning and the `Decimal` construction; the `if value <= 0:`
comparison at line 94 sits outside it, so when the cleaned string
denotes a NaN the comparison's `decimal.InvalidOperation` escapes the
function uncaught (`raise`).  A constructed `+Infinity` compares
`<= 0` as false and is returned as a successful value; `-Infinity`
compares true and yields the non-positive error. -/
def parse_value_br_full (value : Option String) (name : String) : PyParse :=
  match value with
  | none => .ret none [invalidValueMsg name]
  | some v =>
    match pyDecParse (cleanBR v) with
    | none => .ret none [invalidValueMsg name]
    | some PyDec.nan => .raise
    | some (PyDec.inf true) => .ret none [nonPositiveMsg name]
    | some (PyDec.inf false) => .ret (some (PyDec.inf false)) []
    | some (PyDec.fin d) =>
      if Dec.le d Dec.zero then .ret none [nonPositiveMsg name]
      else .ret (some (PyDec.fin d)) []

instance exceptDecEq {ε α : Type} [DecidableEq ε] [DecidableEq α] :
    DecidableEq (Except ε α) := fun a b =>
  match a, b with
  | .error e, .error f =>
    if h : e = f then .isTrue (by rw [h]) else .isFalse (fun c => h (by injection c))
  | .error _, .ok _ => .isFalse (fun c => Except.noConfusion c)
  | .ok _, .error _ => .isFalse (fun c => Except.noConfusion c)
  | .ok x, .ok y =>
    if h : x = y then .isTrue (by rw [h]) else .isFalse (fun c => h (by injection c))

/-- Calendar date, as parsed by `datetime.strptime` with format
`%Y-%m-%d`. -/
structure Date where
  y : Nat
  mo : Nat
  d : Nat
deriving DecidableEq

/-- Gregorian leap-year test. -/
def isLeap (y : Nat) : Bool := (y % 4 == 0 && y % 100 != 0) || y % 400 == 0

/-- Length of month `mo` in year `y`. -/
def daysInMonth (y mo : Nat) : Nat :=
  if mo = 2 then (if isLeap y then 29 else 28)
  else if mo = 4 ∨ mo = 6 ∨ mo = 9 ∨ mo = 11 then 30
  else 31

/-- Days of year `y` that precede the first day of month `mo`. -/
def daysBeforeMonth (y mo : Nat) : Nat :=
  ((List.range (mo - 1)).map (fun k => daysInMonth y (k + 1))).sum

/-- Linear day number of a date (day 1 is 0001-01-01), so that date
differences agree with `datetime` subtraction. -/
def dayNumber (dt : Date) : Int :=
  365 * ((dt.y : Int) - 1) + ((dt.y : Int) - 1) / 4 - ((dt.y : Int) - 1) / 100
    + ((dt.y : Int) - 1) / 400 + (daysBeforeMonth dt.y dt.mo : Int) + (dt.d : Int)

/-- Date parser mirroring `strptime(s, "%Y-%m-%d")` (cpython matches the
year with exactly four digits and month and day with one or two digits)
followed by the `datetime` constructor's calendar validation. -/
def parseDate (sv : String) : Option Date :=
  match sv.toList with
  | a :: b :: c :: d :: '-' :: rest =>
    if a.isDigit ∧ b.isDigit ∧ c.isDigit ∧ d.isDigit then
      let y := digitsVal [a.toNat - 48, b.toNat - 48, c.toNat - 48, d.toNat - 48]
      let p1 := takeDigits rest
      match p1.2 with
      | '-' :: rest2 =>
        let p2 := takeDigits rest2
        if p1.1.length = 0 ∨ 2 < p1.1.length ∨ p2.1.length = 0 ∨ 2 < p2.1.length
            ∨ ¬ p2.2.isEmpty then none
        else
          let mo := digitsVal p1.1
          let d := digitsVal p2.1
          if 1 ≤ y ∧ 1 ≤ mo ∧ mo ≤ 12 ∧ 1 ≤ d ∧ d ≤ daysInMonth y mo then
            some ⟨y, mo, d⟩
          else none
      | _ => none
    else none
  | _ => none

/-- Embedding of format_period (src/movements/services.py lines 14-50).
The code parses `start + " 00:00:00"` and `end + " 23:59:59"`; with
those fixed times, `start_dt > end_dt` holds exactly when the start
date is the later one, and `(end_dt - start_dt).days` equals the day
difference of the two dates, which is what is modelled here.  The
timezone normalisation (`make_aware`) has no effect on these checks and
is not modelled.  A ValueError from either `strptime` call is answered
with the invalid-date message. -/
def format_period (start finish : String) : Except String (Date × Date) :=
  match parseDate start, parseDate finish with
  | some ds, some de =>
    if dayNumber de < dayNumber ds then .error negativePeriodMsg
    else if 31 ≤ dayNumber de - dayNumber ds then .error periodTooLongMsg
    else .ok (ds, de)
  | _, _ => .error invalidDateMsg

/-- Row of stock.Ingredient that the services touch: name, unit of
measure, and current stock `qte` (a 3-fractional-digit decimal column). -/
structure Ingredient where
  name : String
  measure : String
  qte : Dec
deriving DecidableEq

/-- Row of stock.Product with its recipe: the ProductIngredient rows as
(ingredient id, required quantity) pairs. -/
structure Product where
  name : String
  price : Dec
  recipe : List (Nat × Dec)
deriving DecidableEq

/-- Database state seen by the services: the Ingredient table, indexed
by primary key.  Products are never written by the services and are
passed separately. -/
structure StockState where
  ing : Nat → Option Ingredient

/-- Write of one ingredient's `qte` column (one row of a bulk_update). -/
def updateQte (st : StockState) (i : Nat) (q : Dec) : StockState :=
  ⟨fun j => if j = i then (st.ing i).map (fun g => { g with qte := q }) else st.ing j⟩

/-- Embedding of `Ingredient.objects.bulk_update` on a list of staged
(id, new qte) rows, applied in list order. -/
def applyStaged (st : StockState) (l : List (Nat × Dec)) : StockState :=
  l.foldl (fun s x => updateQte s x.1 x.2) st

/-- Row of movements.Movement as created by the services. -/
structure Movement where
  user : String
  value : Dec
  type : String
  commentary : String

/-- Row of movements.MovementInflow. -/
structure InflowLine where
  name : String
  quantity : Dec
  price : Dec
  measure : String
deriving DecidableEq

/-- Row of movements.MovementOutflow (`price` holds the line value
`product.price * quantity`, as in the source). -/
structure OutflowLine where
  name : String
  quantity : Dec
  price : Dec
deriving DecidableEq

/-- Failure of a service call.  `validation` is a raised
ValidationError; `notFound` a Model.DoesNotExist from `objects.get`;
`keyError` the KeyError of an unsupported conversion pair.  Each one
aborts the surrounding `transaction.atomic` block, so the database is
left unchanged. -/
inductive SvcError
  | validation (msgs : List String)
  | notFound
  | keyError
deriving DecidableEq

/-- Inflow request data: the selected ingredient ids and, for each id,
the raw `qi-`/`pi-`/`m-` form fields. -/
structure InflowRequest where
  ingredients : List Nat
  q : Nat → String
  p : Nat → String
  m : Nat → String
  commentary : String

/-- Outflow request data: the selected product ids and the raw `qp-`
form fields. -/
structure OutflowRequest where
  products : List Nat
  qp : Nat → String
  commentary : String

/-- Entry staged by one validated create_inflow line: the fetched
ingredient's id and updated stock, plus the tuple
`(ingredient, qte_to_add, price, measure)` the source appends to
`ingredients_to_add` (the quantity is the parsed, unconverted one). -/
structure InflowStaged where
  id : Nat
  newQte : Dec
  name : String
  qv : Dec
  price : Dec
  measure : String

/-- Loop of create_inflow (src/movements/services.py lines 126-141): per
selected id, fetch the ingredient, parse quantity and price (collecting
both error lists and skipping the line on failure), convert the parsed
quantity into the ingredient's stored unit and stage the stock addition
computed against the pre-transaction row (bulk_update runs only after
the loop). -/
def inflowLoop (st : StockState) (req : InflowRequest) :
    List Nat → Except SvcError (List String × List InflowStaged)
  | [] => .ok ([], [])
  | i :: rest =>
    match st.ing i with
    | none => .error .notFound
    | some g =>
      if (parse_value_br (some (req.q i)) g.name).2 ≠ [] ∨
          (parse_value_br (some (req.p i)) g.name).2 ≠ [] then
        match inflowLoop st req rest with
        | .error e => .error e
        | .ok (errs, staged) =>
          .ok ((parse_value_br (some (req.q i)) g.name).2 ++
            (parse_value_br (some (req.p i)) g.name).2 ++ errs, staged)
      else
        match (parse_value_br (some (req.q i)) g.name).1,
            (parse_value_br (some (req.p i)) g.name).1 with
        | some qv, some pv =>
          match convert_measures qv (req.m i) g.measure with
          | none => .error .keyError
          | some cv =>
            match inflowLoop st req rest with
            | .error e => .error e
            | .ok (errs, staged) =>
              .ok (errs, ⟨i, Dec.add g.qte cv, g.name, qv, pv, req.m i⟩ :: staged)
        | _, _ => .error .keyError

/-- Embedding of create_inflow (src/movements/services.py lines
100-162).  The `@transaction.atomic` decorator means an error outcome
leaves the ingredient table unchanged; a success commits the staged
bulk_update, one Movement row and one MovementInflow row per staged
line. -/
def create_inflow (st : StockState) (req : InflowRequest) (username : String) :
    Except SvcError (StockState × Movement × List InflowLine) :=
  if req.ingredients = [] then .error (.validation [selectIngredientMsg])
  else
    match inflowLoop st req req.ingredients with
    | .error e => .error e
    | .ok (errs, staged) =>
      if errs ≠ [] then .error (.validation errs)
      else
        .ok (applyStaged st (staged.map (fun x => (x.id, x.newQte))),
          ⟨username, (staged.map (fun x => x.price)).foldl Dec.add Dec.zero, "in",
            req.commentary⟩,
          staged.map (fun x => ⟨x.name, x.qv, x.price, x.measure⟩))

/-- Recipe loop of create_outflow (src/movements/services.py lines
203-212): for each ProductIngredient row, fetch the ingredient from the
current database state, compute `remaining = qte - quantity * sold`,
collect an insufficient-stock message when it is negative and otherwise
stage the reduction.  Every check reads the state the product was
entered with: staged reductions are only persisted by the product-level
bulk_update afterwards. -/
def recipeLoop (st : StockState) (q : Dec) :
    List (Nat × Dec) → Except SvcError (List String × List (Nat × Dec))
  | [] => .ok ([], [])
  | item :: rest =>
    match st.ing item.1 with
    | none => .error .notFound
    | some g =>
      match recipeLoop st q rest with
      | .error e => .error e
      | .ok (errs, staged) =>
        if Dec.lt (Dec.sub g.qte (Dec.mul item.2 q)) Dec.zero then
          .ok (insufficientMsg g.name :: errs, staged)
        else .ok (errs, (item.1, Dec.sub g.qte (Dec.mul item.2 q)) :: staged)

/-- Product loop of create_outflow (src/movements/services.py lines
191-222).  A failed quantity parse records its messages only in the
per-product list and `continue`s, which skips the `errors.extend`
at the bottom of the loop, so those messages never reach the batch
error list (this is the behaviour under claim C2).  A product with any
insufficient ingredient contributes its messages to the batch list and
changes nothing; a fully validated product commits its bulk_update
inside the transaction before the next product is processed and is
recorded as sold with line value `price * quantity`. -/
def outflowLoop (prods : Nat → Option Product) (req : OutflowRequest)
    (st : StockState) :
    List Nat → Except SvcError (List String × StockState × List OutflowLine)
  | [] => .ok ([], st, [])
  | p :: rest =>
    match prods p with
    | none => .error .notFound
    | some prod =>
      match parse_value_br (some (req.qp p)) prod.name with
      | (_, _ :: _) => outflowLoop prods req st rest
      | (some q, []) =>
        match (if Dec.eqv q Dec.zero then .ok ([], []) else recipeLoop st q prod.recipe :
            Except SvcError (List String × List (Nat × Dec))) with
        | .error e => .error e
        | .ok (perrs, staged) =>
          if perrs ≠ [] then
            match outflowLoop prods req st rest with
            | .error e => .error e
            | .ok (errs, s2, sold) => .ok (perrs ++ errs, s2, sold)
          else
            match outflowLoop prods req (applyStaged st staged) rest with
            | .error e => .error e
            | .ok (errs, s2, sold) =>
              .ok (errs, s2, ⟨prod.name, q, Dec.mul prod.price q⟩ :: sold)
      | (none, []) => .error .keyError

/-- Embedding of create_outflow (src/movements/services.py lines
165-241).  An error outcome models a raised exception inside
`@transaction.atomic`: every bulk_update already issued by the product
loop is rolled back and no Movement or MovementOutflow row exists.  A
success commits the final state, one Movement row and one
MovementOutflow row per sold product. -/
def create_outflow (prods : Nat → Option Product) (st : StockState)
    (req : OutflowRequest) (username : String) :
    Except SvcError (StockState × Movement × List OutflowLine) :=
  if req.products = [] then .error (.validation [selectProductMsg])
  else
    match outflowLoop prods req st req.products with
    | .error e => .error e
    | .ok (errs, s2, sold) =>
      if errs ≠ [] then .error (.validation errs)
      else
        .ok (s2, ⟨username, (sold.map (fun x => x.price)).foldl Dec.add Dec.zero, "out",
          req.commentary⟩, sold)

/-- Error payload of a service result, `none` on success (projection
used to state concrete facts without comparing whole states). -/
def errorOf (r : Except SvcError (StockState × Movement × List α)) : Option SvcError :=
  match r with
  | .error e => some e
  | .ok _ => none

/-- Database state actually committed by a service call running inside
`@transaction.atomic`: the returned state on success, the unchanged
input state when the call raised. -/
def committed (st : StockState)
    (r : Except SvcError (StockState × Movement × List α)) : StockState :=
  match r with
  | .ok x => x.1
  | .error _ => st

/-- Existence of an ingredient row. -/
def ingExists (st : StockState) (i : Nat) : Prop := ∃ g, st.ing i = some g

/-- Stock invariant: every ingredient quantity is non-negative. -/
def Nonneg (st : StockState) : Prop := ∀ i g, st.ing i = some g → 0 ≤ g.qte.toRat

/-- Current quantity of ingredient `i` (zero when the row is absent). -/
def qteOf (st : StockState) (i : Nat) : Dec :=
  match st.ing i with
  | some g => g.qte
  | none => Dec.zero

/-- Unit pairs the conversion table of convert_measures maps. -/
def supportedPair (o d : String) : Prop :=
  (o = "g" ∧ d = "kg") ∨ (o = "kg" ∧ d = "g") ∨
    (o = d ∧ (o = "g" ∨ o = "kg" ∨ o = "unit"))

instance (o d : String) : Decidable (supportedPair o d) := by
  unfold supportedPair; infer_instance

/-- Parse errors one create_inflow line contributes to the batch error
list (quantity errors then price errors, as the source extends them). -/
def lineErrors (st : StockState) (req : InflowRequest) (i : Nat) : List String :=
  match st.ing i with
  | none => []
  | some g =>
    (parse_value_br (some (req.q i)) g.name).2 ++ (parse_value_br (some (req.p i)) g.name).2

/-- MovementInflow row a fully parsed create_inflow line produces. -/
def lineOf (st : StockState) (req : InflowRequest) (i : Nat) : Option InflowLine :=
  match st.ing i with
  | none => none
  | some g =>
    match (parse_value_br (some (req.q i)) g.name).1,
        (parse_value_br (some (req.p i)) g.name).1 with
    | some qv, some pv => some ⟨g.name, qv, pv, req.m i⟩
    | _, _ => none

/-- Amount of ingredient `i` one outflow selection demands: recipe
quantity times parsed sold quantity, zero when the product is missing
or its quantity does not parse. -/
def productDemand (prods : Nat → Option Product) (req : OutflowRequest)
    (p i : Nat) : ℚ :=
  match prods p with
  | none => 0
  | some prod =>
    match parse_value_br (some (req.qp p)) prod.name with
    | (some q, []) =>
      ((prod.recipe.filter (fun x => x.1 = i)).map (fun x => (Dec.mul x.2 q).toRat)).sum
    | _ => 0

/-- Cumulative demand of a whole outflow batch on ingredient `i`. -/
def outflowDemand (prods : Nat → Option Product) (req : OutflowRequest) (i : Nat) : ℚ :=
  (req.products.map (fun p => productDemand prods req p i)).sum

/-- Well-formedness of an inflow request against a state: every
selected ingredient row exists and every line that parses uses a
conversion pair the table maps (otherwise the call dies with
DoesNotExist or KeyError instead of a ValidationError). -/
def WFIn (st : StockState) (req : InflowRequest) (ids : List Nat) : Prop :=
  ∀ i ∈ ids, ∃ g, st.ing i = some g ∧
    (lineErrors st req i ≠ [] ∨ supportedPair (req.m i) g.measure)

/-- Well-formedness of an outflow selection list against a state: every
selected product row exists and so does every ingredient row its recipe
references. -/
def WFOut (prods : Nat → Option Product) (st : StockState) (ps : List Nat) : Prop :=
  ∀ p ∈ ps, ∃ prod, prods p = some prod ∧ ∀ x ∈ prod.recipe, ingExists st x.1

/-- Database uniqueness constraint of stock.ProductIngredient
(`unique_together = ("product", "ingredient")`): no recipe references
the same ingredient twice. -/
def NodupRecipes (prods : Nat → Option Product) (ps : List Nat) : Prop :=
  ∀ p ∈ ps, ∀ prod, prods p = some prod → (prod.recipe.map Prod.fst).Nodup

/-- Concrete fixture: one ingredient stored in kilograms with stock 10. -/
def stFlour : StockState :=
  ⟨fun j => if j = 1 then some ⟨"Flour", "kg", ⟨10, 0⟩⟩ else none⟩

/-- Concrete fixture: inflow request adding 500 g of Flour at price 2,50. -/
def reqFlour : InflowRequest :=
  ⟨[1], fun _ => "500", fun _ => "2,50", fun _ => "g", "c"⟩

/-- Concrete fixture: inflow request whose quantity does not parse. -/
def reqBadInflow : InflowRequest :=
  ⟨[1], fun _ => "abc", fun _ => "2,50", fun _ => "g", "c"⟩

/-- Concrete fixture: ingredient Cheese with stock 3 units. -/
def stCheese : StockState :=
  ⟨fun j => if j = 1 then some ⟨"Cheese", "unit", ⟨3, 0⟩⟩ else none⟩

/-- Concrete fixture: product whose recipe needs 2 Cheese per sale. -/
def prodsPizza : Nat → Option Product :=
  fun j => if j = 1 then some ⟨"Pizza", ⟨10, 0⟩, [(1, ⟨2, 0⟩)]⟩ else none

/-- Concrete fixture: outflow request selling quantity 2. -/
def reqSellTwo : OutflowRequest := ⟨[1], fun _ => "2", "c"⟩

/-- Concrete fixture: outflow request with an unparsable quantity. -/
def reqAbc : OutflowRequest := ⟨[1], fun _ => "abc", "c"⟩

/-- Concrete fixture: shared ingredient with stock 10. -/
def stShared : StockState :=
  ⟨fun j => if j = 1 then some ⟨"Dough", "g", ⟨10, 0⟩⟩ else none⟩

/-- Concrete fixture: two products drawing 6 and 4 from the shared
ingredient per sale. -/
def prodsShared : Nat → Option Product := fun j =>
  if j = 1 then some ⟨"A", ⟨5, 0⟩, [(1, ⟨6, 0⟩)]⟩
  else if j = 2 then some ⟨"B", ⟨4, 0⟩, [(1, ⟨4, 0⟩)]⟩
  else none

/-- Concrete fixture: outflow batch selling one of each shared product. -/
def reqShared : OutflowRequest := ⟨[1, 2], fun _ => "1", "c"⟩

lemma pow10_pos (n : Nat) : 0 < pow10 n := by
  induction n with
  | zero => simp [pow10]
  | succ k ih => unfold pow10; positivity

lemma pow10_cast (n : Nat) : ((pow10 n : Int) : ℚ) = 10 ^ n := by
  induction n with
  | zero => simp [pow10]
  | succ k ih =>
    unfold pow10
    push_cast
    rw [ih, pow_succ]
    ring

lemma pow10_rat_pos (n : Nat) : 0 < (10 : ℚ) ^ n := by positivity

lemma Dec.toRat_zero : Dec.zero.toRat = 0 := by
  simp [Dec.zero, Dec.toRat]

lemma Dec.toRat_add (a b : Dec) : (Dec.add a b).toRat = a.toRat + b.toRat := by
  unfold Dec.toRat Dec.add
  simp only
  push_cast [pow10_cast]
  rw [pow_add]
  field_simp

lemma Dec.toRat_sub (a b : Dec) : (Dec.sub a b).toRat = a.toRat - b.toRat := by
  unfold Dec.toRat Dec.sub
  simp only
  push_cast [pow10_cast]
  rw [pow_add]
  field_simp
  ring

lemma Dec.toRat_mul (a b : Dec) : (Dec.mul a b).toRat = a.toRat * b.toRat := by
  unfold Dec.toRat Dec.mul
  simp only
  push_cast
  rw [pow_add]
  field_simp

lemma Dec.toRat_div1000 (a : Dec) : a.div1000.toRat = a.toRat / 1000 := by
  unfold Dec.toRat Dec.div1000
  simp only
  rw [pow_add, div_div]
  norm_num

lemma Dec.toRat_mul1000 (a : Dec) : a.mul1000.toRat = a.toRat * 1000 := by
  unfold Dec.toRat Dec.mul1000
  simp only
  push_cast
  rw [div_mul_eq_mul_div]

lemma Dec.le_iff (a b : Dec) : Dec.le a b ↔ a.toRat ≤ b.toRat := by
  unfold Dec.le Dec.toRat
  rw [div_le_div_iff₀ (pow10_rat_pos a.s) (pow10_rat_pos b.s)]
  rw [← pow10_cast, ← pow10_cast]
  constructor <;> intro h <;> exact_mod_cast h

lemma Dec.lt_iff (a b : Dec) : Dec.lt a b ↔ a.toRat < b.toRat := by
  unfold Dec.lt Dec.toRat
  rw [div_lt_div_iff₀ (pow10_rat_pos a.s) (pow10_rat_pos b.s)]
  rw [← pow10_cast, ← pow10_cast]
  constructor <;> intro h <;> exact_mod_cast h

lemma Dec.eqv_iff (a b : Dec) : Dec.eqv a b ↔ a.toRat = b.toRat := by
  unfold Dec.eqv Dec.toRat
  rw [div_eq_div_iff (by positivity) (by positivity)]
  rw [← pow10_cast, ← pow10_cast]
  constructor <;> intro h <;> exact_mod_cast h

lemma parse_some (v : Option String) (n : String) (d : Dec) (es : List String)
    (h : parse_value_br v n = (some d, es)) : es = [] ∧ 0 < d.toRat := by
  unfold parse_value_br at h
  split at h
  · simp at h
  · split at h
    · simp at h
    · split at h
      · simp at h
      · rename_i dd hle
        rw [Prod.mk.injEq] at h
        obtain ⟨h1, h2⟩ := h
        injection h1 with h1
        subst h1
        refine ⟨h2.symm, ?_⟩
        rw [Dec.le_iff, Dec.toRat_zero] at hle
        exact lt_of_not_ge hle

lemma parse_snd_nil (v : Option String) (n : String)
    (h : (parse_value_br v n).2 = []) :
    ∃ d, parse_value_br v n = (some d, []) ∧ 0 < d.toRat := by
  match hp : parse_value_br v n with
  | (some d, es) =>
    obtain ⟨h1, h2⟩ := parse_some v n d es hp
    subst h1
    exact ⟨d, rfl, h2⟩
  | (none, es) =>
    rw [hp] at h
    simp only at h
    subst h
    exfalso
    unfold parse_value_br at hp
    split at hp
    · simp at hp
    · split at hp
      · simp at hp
      · split at hp
        · simp at hp
        · simp at hp

lemma conv_some_of_supported (o d : String) (hs : supportedPair o d) (q : Dec) :
    ∃ c, convert_measures q o d = some c := by
  unfold supportedPair at hs
  rcases hs with ⟨h1, h2⟩ | ⟨h1, h2⟩ | ⟨h1, h2 | h2 | h2⟩ <;> subst h1 <;> subst h2 <;>
    exact ⟨_, rfl⟩

lemma conv_pos (q : Dec) (o dst : String) (c : Dec)
    (h : convert_measures q o dst = some c) (hq : 0 < q.toRat) : 0 < c.toRat := by
  unfold convert_measures at h
  split at h
  · injection h with h
    subst h
    rw [Dec.toRat_div1000]
    exact div_pos hq (by norm_num)
  · injection h with h
    subst h
    rw [Dec.toRat_mul1000]
    exact mul_pos hq (by norm_num)
  · injection h with h
    subst h
    exact hq
  · injection h with h
    subst h
    exact hq
  · injection h with h
    subst h
    exact hq
  · exact absurd h (by simp)

lemma updateQte_ing (st : StockState) (i : Nat) (q : Dec) (j : Nat) :
    (updateQte st i q).ing j =
      if j = i then (st.ing i).map (fun g => { g with qte := q }) else st.ing j := rfl

lemma updateQte_exists (st : StockState) (i : Nat) (q : Dec) (j : Nat) :
    ingExists (updateQte st i q) j ↔ ingExists st j := by
  unfold ingExists
  rw [updateQte_ing]
  by_cases hj : j = i
  · subst hj
    rw [if_pos rfl]
    match st.ing j with
    | none => simp
    | some g => simp
  · rw [if_neg hj]

lemma applyStaged_exists (l : List (Nat × Dec)) (st : StockState) (j : Nat) :
    ingExists (applyStaged st l) j ↔ ingExists st j := by
  induction l generalizing st with
  | nil => rfl
  | cons x xs ih =>
    unfold applyStaged at ih ⊢
    rw [List.foldl_cons, ih, updateQte_exists]

lemma applyStaged_nonneg (l : List (Nat × Dec)) (st : StockState)
    (hst : Nonneg st) (hl : ∀ x ∈ l, 0 ≤ (x.2).toRat) :
    Nonneg (applyStaged st l) := by
  induction l generalizing st with
  | nil => exact hst
  | cons x xs ih =>
    show Nonneg (applyStaged (updateQte st x.1 x.2) xs)
    refine ih (updateQte st x.1 x.2) ?_ (fun y hy => hl y (List.mem_cons_of_mem x hy))
    intro j g hj
    rw [updateQte_ing] at hj
    by_cases h : j = x.1
    · rw [if_pos h] at hj
      match hsome : st.ing x.1 with
      | none =>
        rw [hsome] at hj
        simp at hj
      | some g0 =>
        rw [hsome] at hj
        simp only [Option.map_some'] at hj
        injection hj with hj
        subst hj
        exact hl x (List.mem_cons_self x xs)
    · rw [if_neg h] at hj
      exact hst j g hj

lemma applyStaged_not_mem (l : List (Nat × Dec)) (st : StockState) (i : Nat)
    (h : i ∉ l.map Prod.fst) : (applyStaged st l).ing i = st.ing i := by
  induction l generalizing st with
  | nil => rfl
  | cons x xs ih =>
    have hx : i ≠ x.1 := by
      intro c
      exact h (by rw [List.map_cons]; exact c ▸ List.mem_cons_self _ _)
    have hxs : i ∉ xs.map Prod.fst := by
      intro c
      exact h (by rw [List.map_cons]; exact List.mem_cons_of_mem _ c)
    show (applyStaged (updateQte st x.1 x.2) xs).ing i = st.ing i
    rw [ih (updateQte st x.1 x.2) hxs, updateQte_ing, if_neg hx]

lemma applyStaged_mem_nodup (l : List (Nat × Dec)) (st : StockState) (i : Nat)
    (v : Dec) (hnd : (l.map Prod.fst).Nodup) (hmem : (i, v) ∈ l) (g : Ingredient)
    (hg : st.ing i = some g) :
    (applyStaged st l).ing i = some { g with qte := v } := by
  induction l generalizing st with
  | nil => simp at hmem
  | cons x xs ih =>
    rw [List.map_cons, List.nodup_cons] at hnd
    rcases List.mem_cons.mp hmem with hx | hxs
    · have hx1 : x.1 = i := by rw [← hx]
      have hv : x.2 = v := by rw [← hx]
      have hni : i ∉ xs.map Prod.fst := hx1 ▸ hnd.1
      show (applyStaged (updateQte st x.1 x.2) xs).ing i = some { g with qte := v }
      rw [applyStaged_not_mem xs _ i hni, updateQte_ing, if_pos hx1.symm, hx1, hg]
      simp only [Option.map_some']
      rw [hv]
    · have hx1 : x.1 ≠ i := by
        intro c
        exact hnd.1 (c ▸ List.mem_map.mpr ⟨(i, v), hxs, rfl⟩)
      have hg2 : (updateQte st x.1 x.2).ing i = some g := by
        rw [updateQte_ing, if_neg (fun c => hx1 c.symm)]
        exact hg
      show (applyStaged (updateQte st x.1 x.2) xs).ing i = some { g with qte := v }
      exact ih (updateQte st x.1 x.2) hnd.2 hxs hg2

lemma recipeLoop_isOk (st : StockState) (q : Dec) (items : List (Nat × Dec))
    (h : ∀ x ∈ items, ingExists st x.1) :
    ∃ errs staged, recipeLoop st q items = .ok (errs, staged) := by
  induction items with
  | nil => exact ⟨[], [], rfl⟩
  | cons x xs ih =>
    obtain ⟨g, hg⟩ := h x (List.mem_cons_self x xs)
    obtain ⟨errs, staged, hout⟩ := ih (fun y hy => h y (List.mem_cons_of_mem x hy))
    simp only [recipeLoop, hg, hout]
    split
    · exact ⟨_, _, rfl⟩
    · exact ⟨_, _, rfl⟩

lemma recipeLoop_staged_nonneg (st : StockState) (q : Dec)
    (items : List (Nat × Dec)) (errs : List String) (staged : List (Nat × Dec))
    (h : recipeLoop st q items = .ok (errs, staged)) :
    ∀ y ∈ staged, 0 ≤ y.2.toRat := by
  induction items generalizing errs staged with
  | nil =>
    unfold recipeLoop at h
    injection h with h
    rw [Prod.mk.injEq] at h
    rw [← h.2]
    intro y hy
    simp at hy
  | cons x xs ih =>
    unfold recipeLoop at h
    split at h
    · exact absurd h (by simp)
    · rename_i g hg
      split at h
      · exact absurd h (by simp)
      · rename_i out errs0 staged0 hr
        split at h
        · injection h with h
          rw [Prod.mk.injEq] at h
          rw [← h.2]
          exact ih errs0 staged0 hr
        · rename_i hlt
          injection h with h
          rw [Prod.mk.injEq] at h
          rw [← h.2]
          intro y hy
          rcases List.mem_cons.mp hy with h1 | h1
          · rw [h1]
            rw [Dec.lt_iff, Dec.toRat_zero] at hlt
            exact le_of_not_lt hlt
          · exact ih errs0 staged0 hr y h1

lemma recipeLoop_insufficient (st : StockState) (q : Dec)
    (items : List (Nat × Dec)) (i0 : Nat) (rq : Dec) (g0 : Ingredient)
    (hitem : (i0, rq) ∈ items) (hing : st.ing i0 = some g0)
    (hlt : Dec.lt (Dec.sub g0.qte (Dec.mul rq q)) Dec.zero)
    (errs : List String) (staged : List (Nat × Dec))
    (h : recipeLoop st q items = .ok (errs, staged)) :
    insufficientMsg g0.name ∈ errs := by
  induction items generalizing errs staged with
  | nil => simp at hitem
  | cons x xs ih =>
    unfold recipeLoop at h
    split at h
    · exact absurd h (by simp)
    · rename_i g hg
      split at h
      · exact absurd h (by simp)
      · rename_i out errs0 staged0 hr
        rcases List.mem_cons.mp hitem with h1 | h1
        · have hx1 : x.1 = i0 := by rw [← h1]
          have hx2 : x.2 = rq := by rw [← h1]
          rw [hx1, hing] at hg
          injection hg with hg
          subst hg
          rw [hx2] at h
          rw [if_pos hlt] at h
          injection h with h
          rw [Prod.mk.injEq] at h
          rw [← h.1]
          exact List.mem_cons_self _ _
        · have hmem0 : insufficientMsg g0.name ∈ errs0 := ih h1 errs0 staged0 hr
          split at h
          · injection h with h
            rw [Prod.mk.injEq] at h
            rw [← h.1]
            exact List.mem_cons_of_mem _ hmem0
          · injection h with h
            rw [Prod.mk.injEq] at h
            rw [← h.1]
            exact hmem0

lemma recipeLoop_all_staged (st : StockState) (q : Dec)
    (items : List (Nat × Dec)) (staged : List (Nat × Dec))
    (h : recipeLoop st q items = .ok ([], staged)) :
    staged = items.map (fun x => (x.1, Dec.sub (qteOf st x.1) (Dec.mul x.2 q))) := by
  induction items generalizing staged with
  | nil =>
    unfold recipeLoop at h
    injection h with h
    rw [Prod.mk.injEq] at h
    rw [← h.2, List.map_nil]
  | cons x xs ih =>
    unfold recipeLoop at h
    split at h
    · exact absurd h (by simp)
    · rename_i g hg
      split at h
      · exact absurd h (by simp)
      · rename_i out errs0 staged0 hr
        split at h
        · injection h with h
          rw [Prod.mk.injEq] at h
          exact absurd h.1.symm (by simp)
        · injection h with h
          rw [Prod.mk.injEq] at h
          have he : errs0 = [] := h.1
          rw [he] at hr
          rw [← h.2, List.map_cons, ih staged0 hr]
          have hq : qteOf st x.1 = g.qte := by
            unfold qteOf
            rw [hg]
          rw [hq]

lemma parse_fst_some (v : Option String) (n : String) (d : Dec)
    (h : (parse_value_br v n).1 = some d) :
    parse_value_br v n = (some d, []) ∧ 0 < d.toRat := by
  match hp : parse_value_br v n with
  | (some d0, es) =>
    rw [hp] at h
    injection h with h
    subst h
    obtain ⟨h1, h2⟩ := parse_some v n d0 es hp
    subst h1
    exact ⟨rfl, h2⟩
  | (none, es) =>
    rw [hp] at h
    simp at h

lemma filter_fst_nil {α : Type} (l : List (Nat × α)) (i : Nat)
    (h : i ∉ l.map Prod.fst) : l.filter (fun y => y.1 = i) = [] := by
  induction l with
  | nil => rfl
  | cons z zs ih =>
    have hz : ¬ z.1 = i := by
      intro c
      exact h (List.map_cons _ z zs ▸ (c ▸ List.mem_cons_self _ _))
    have hzs : i ∉ zs.map Prod.fst := by
      intro c
      exact h (List.map_cons _ z zs ▸ List.mem_cons_of_mem _ c)
    rw [List.filter_cons_of_neg (by simpa using hz), ih hzs]

lemma filter_fst_single {α : Type} (l : List (Nat × α)) (i : Nat) (x : Nat × α)
    (hnd : (l.map Prod.fst).Nodup) (hx : x ∈ l) (hxi : x.1 = i) :
    l.filter (fun y => y.1 = i) = [x] := by
  induction l with
  | nil => simp at hx
  | cons z zs ih =>
    rw [List.map_cons, List.nodup_cons] at hnd
    rcases List.mem_cons.mp hx with h1 | h1
    · subst h1
      rw [List.filter_cons_of_pos (by simpa using hxi)]
      have : i ∉ zs.map Prod.fst := hxi ▸ hnd.1
      rw [filter_fst_nil zs i this]
    · have hz : ¬ z.1 = i := by
        intro c
        refine hnd.1 ?_
        rw [c, ← hxi] at *
        exact List.mem_map.mpr ⟨x, h1, hxi⟩
      rw [List.filter_cons_of_neg (by simpa using hz)]
      exact ih hnd.2 h1

lemma inflowLoop_errs (st : StockState) (req : InflowRequest) (ids : List Nat)
    (hwf : WFIn st req ids) :
    ∃ staged, inflowLoop st req ids =
      .ok ((ids.map (lineErrors st req)).flatten, staged) := by
  induction ids with
  | nil => exact ⟨[], rfl⟩
  | cons i rest ih =>
    obtain ⟨staged0, hrec⟩ := ih (fun j hj => hwf j (List.mem_cons_of_mem i hj))
    obtain ⟨g, hg, halt⟩ := hwf i (List.mem_cons_self i rest)
    have hline : lineErrors st req i =
        (parse_value_br (some (req.q i)) g.name).2 ++
          (parse_value_br (some (req.p i)) g.name).2 := by
      unfold lineErrors
      rw [hg]
    by_cases hcase : (parse_value_br (some (req.q i)) g.name).2 ≠ [] ∨
        (parse_value_br (some (req.p i)) g.name).2 ≠ []
    · refine ⟨staged0, ?_⟩
      simp only [inflowLoop, hg, hrec, if_pos hcase, List.map_cons, List.flatten_cons,
        hline, List.append_assoc]
    · push_neg at hcase
      obtain ⟨qv, hqv, hqpos⟩ := parse_snd_nil _ _ hcase.1
      obtain ⟨pv, hpv, hppos⟩ := parse_snd_nil _ _ hcase.2
      have hsup : supportedPair (req.m i) g.measure := by
        rcases halt with hbad | hok
        · exfalso
          rw [hline, hcase.1, hcase.2] at hbad
          simp at hbad
        · exact hok
      obtain ⟨cv, hcv⟩ := conv_some_of_supported _ _ hsup qv
      refine ⟨⟨i, Dec.add g.qte cv, g.name, qv, pv, req.m i⟩ :: staged0, ?_⟩
      have hcase2 : ¬ ((parse_value_br (some (req.q i)) g.name).2 ≠ [] ∨
          (parse_value_br (some (req.p i)) g.name).2 ≠ []) := by
        rw [hcase.1, hcase.2]
        simp
      simp only [inflowLoop, hg, if_neg hcase2, hqv, hpv, hcv, hrec, List.map_cons,
        List.flatten_cons, hline, hcase.1, hcase.2, List.nil_append]
      simp

lemma inflowLoop_lines (st : StockState) (req : InflowRequest) (ids : List Nat)
    (staged : List InflowStaged)
    (h : inflowLoop st req ids = .ok ([], staged)) :
    staged.map (fun x => some (InflowLine.mk x.name x.qv x.price x.measure)) =
      ids.map (lineOf st req) := by
  induction ids generalizing staged with
  | nil =>
    unfold inflowLoop at h
    injection h with h
    rw [Prod.mk.injEq] at h
    rw [← h.2]
    rfl
  | cons i rest ih =>
    unfold inflowLoop at h
    split at h
    · exact absurd h (by simp)
    · rename_i g hg
      split at h
      · rename_i hcase
        split at h
        · exact absurd h (by simp)
        · rename_i out errs0 staged0 hr
          injection h with h
          rw [Prod.mk.injEq] at h
          obtain ⟨h1, h2⟩ := h
          rw [List.append_assoc] at h1
          have h3 := List.append_eq_nil.mp h1
          rcases hcase with hc | hc
          · exact absurd h3.1 hc
          · exact absurd (List.append_eq_nil.mp h3.2).1 hc
      · split at h
        · rename_i qv pv hqv hpv
          split at h
          · exact absurd h (by simp)
          · rename_i cv hcv
            split at h
            · exact absurd h (by simp)
            · rename_i out errs0 staged0 hr
              injection h with h
              rw [Prod.mk.injEq] at h
              obtain ⟨h1, h2⟩ := h
              rw [← h2, List.map_cons, List.map_cons]
              rw [h1] at hr
              rw [ih staged0 hr]
              have : lineOf st req i = some ⟨g.name, qv, pv, req.m i⟩ := by
                simp only [lineOf, hg, hqv, hpv]
              rw [this]
        · rename_i hnone
          exact absurd h (by simp)

lemma inflowLoop_staged_pos (st : StockState) (req : InflowRequest)
    (ids : List Nat) (errs : List String) (staged : List InflowStaged)
    (hst : Nonneg st) (h : inflowLoop st req ids = .ok (errs, staged)) :
    ∀ x ∈ staged, 0 ≤ x.newQte.toRat := by
  induction ids generalizing errs staged with
  | nil =>
    unfold inflowLoop at h
    injection h with h
    rw [Prod.mk.injEq] at h
    rw [← h.2]
    intro x hx
    simp at hx
  | cons i rest ih =>
    unfold inflowLoop at h
    split at h
    · exact absurd h (by simp)
    · rename_i g hg
      split at h
      · split at h
        · exact absurd h (by simp)
        · rename_i out errs0 staged0 hr
          injection h with h
          rw [Prod.mk.injEq] at h
          rw [← h.2]
          exact ih errs0 staged0 hr
      · split at h
        · rename_i qv pv hqv hpv
          split at h
          · exact absurd h (by simp)
          · rename_i cv hcv
            split at h
            · exact absurd h (by simp)
            · rename_i out errs0 staged0 hr
              injection h with h
              rw [Prod.mk.injEq] at h
              rw [← h.2]
              intro x hx
              rcases List.mem_cons.mp hx with h1 | h1
              · rw [h1]
                show 0 ≤ (Dec.add g.qte cv).toRat
                rw [Dec.toRat_add]
                have hq0 : 0 < qv.toRat := (parse_fst_some _ _ _ hqv).2
                have hc0 : 0 < cv.toRat := conv_pos qv _ _ cv hcv hq0
                have hg0 : 0 ≤ g.qte.toRat := hst i g hg
                linarith
              · exact ih errs0 staged0 hr x h1
        · exact absurd h (by simp)

lemma WFOut_applyStaged (prods : Nat → Option Product) (st : StockState)
    (l : List (Nat × Dec)) (ps : List Nat) (h : WFOut prods st ps) :
    WFOut prods (applyStaged st l) ps := by
  intro p hp
  obtain ⟨prod, h1, h2⟩ := h p hp
  exact ⟨prod, h1, fun x hx => (applyStaged_exists l st x.1).mpr (h2 x hx)⟩

lemma parse_not_zero (v : Option String) (n : String) (d : Dec)
    (h : parse_value_br v n = (some d, [])) : ¬ Dec.eqv d Dec.zero := by
  have hpos := (parse_some v n d [] h).2
  rw [Dec.eqv_iff, Dec.toRat_zero]
  exact ne_of_gt hpos

lemma parse_no_none_nil (v : Option String) (n : String) :
    parse_value_br v n ≠ (none, []) := by
  intro hp
  have h2 : (parse_value_br v n).2 = [] := by rw [hp]
  obtain ⟨d, hd, _⟩ := parse_snd_nil v n h2
  rw [hp] at hd
  simp at hd

lemma outflowLoop_isOk (prods : Nat → Option Product) (req : OutflowRequest)
    (ps : List Nat) (st : StockState) (hwf : WFOut prods st ps) :
    ∃ errs s2 sold, outflowLoop prods req st ps = .ok (errs, s2, sold) := by
  induction ps generalizing st with
  | nil => exact ⟨[], st, [], rfl⟩
  | cons p rest ih =>
    have hwfrest : WFOut prods st rest := fun r hr => hwf r (List.mem_cons_of_mem p hr)
    obtain ⟨prod, hprod, hrec⟩ := hwf p (List.mem_cons_self p rest)
    match hp : parse_value_br (some (req.qp p)) prod.name with
    | (a, e :: es) =>
      obtain ⟨errs, s2, sold, hrest⟩ := ih st hwfrest
      exact ⟨errs, s2, sold, by simp only [outflowLoop, hprod, hp, hrest]⟩
    | (some q, []) =>
      by_cases hz : Dec.eqv q Dec.zero
      · obtain ⟨errs, s2, sold, hrest⟩ := ih st hwfrest
        refine ⟨errs, s2, ⟨prod.name, q, Dec.mul prod.price q⟩ :: sold, ?_⟩
        simp only [outflowLoop, hprod, hp, if_pos hz, applyStaged, List.foldl_nil, hrest]
        simp
      · obtain ⟨perrs, staged, hrl⟩ := recipeLoop_isOk st q prod.recipe hrec
        by_cases hpe : perrs = []
        · subst hpe
          obtain ⟨errs, s2, sold, hrest⟩ :=
            ih (applyStaged st staged) (WFOut_applyStaged prods st staged rest hwfrest)
          refine ⟨errs, s2, ⟨prod.name, q, Dec.mul prod.price q⟩ :: sold, ?_⟩
          simp only [outflowLoop, hprod, hp, if_neg hz, hrl, hrest]
          simp
        · obtain ⟨errs, s2, sold, hrest⟩ := ih st hwfrest
          refine ⟨perrs ++ errs, s2, sold, ?_⟩
          simp only [outflowLoop, hprod, hp, if_neg hz, hrl, if_pos hpe, hrest]
    | (none, []) => exact absurd hp (parse_no_none_nil _ _)

lemma outflowLoop_nonneg (prods : Nat → Option Product) (req : OutflowRequest)
    (ps : List Nat) (st : StockState) (errs : List String) (s2 : StockState)
    (sold : List OutflowLine) (hst : Nonneg st)
    (h : outflowLoop prods req st ps = .ok (errs, s2, sold)) : Nonneg s2 := by
  induction ps generalizing st errs s2 sold with
  | nil =>
    unfold outflowLoop at h
    injection h with h
    rw [Prod.mk.injEq, Prod.mk.injEq] at h
    rw [← h.2.1]
    exact hst
  | cons p rest ih =>
    unfold outflowLoop at h
    split at h
    · exact absurd h (by simp)
    · rename_i prod hprod
      split at h
      · exact ih st _ _ _ hst h
      · rename_i q hp
        split at h
        · exact absurd h (by simp)
        · rename_i out perrs staged heq
          have hstagednn : ∀ y ∈ staged, 0 ≤ y.2.toRat := by
            by_cases hz : Dec.eqv q Dec.zero
            · rw [if_pos hz] at heq
              injection heq with heq
              rw [Prod.mk.injEq] at heq
              rw [← heq.2]
              intro y hy
              simp at hy
            · rw [if_neg hz] at heq
              exact recipeLoop_staged_nonneg st q prod.recipe perrs staged heq
          split at h
          · split at h
            · exact absurd h (by simp)
            · rename_i out2 errs0 s0 sold0 hrest
              injection h with h
              rw [Prod.mk.injEq, Prod.mk.injEq] at h
              rw [← h.2.1]
              exact ih st _ _ _ hst hrest
          · split at h
            · exact absurd h (by simp)
            · rename_i out2 errs0 s0 sold0 hrest
              injection h with h
              rw [Prod.mk.injEq, Prod.mk.injEq] at h
              rw [← h.2.1]
              exact ih (applyStaged st staged) _ _ _
                (applyStaged_nonneg staged st hst hstagednn) hrest
      · exact absurd h (by simp)

lemma outflowLoop_qte (prods : Nat → Option Product) (req : OutflowRequest)
    (ps : List Nat) (st : StockState) (s2 : StockState) (sold : List OutflowLine)
    (hwf : WFOut prods st ps) (hnd : NodupRecipes prods ps)
    (h : outflowLoop prods req st ps = .ok ([], s2, sold)) :
    ∀ i g, st.ing i = some g → ∃ g2, s2.ing i = some g2 ∧
      g2.qte.toRat = g.qte.toRat -
        (ps.map (fun p => productDemand prods req p i)).sum := by
  induction ps generalizing st s2 sold with
  | nil =>
    unfold outflowLoop at h
    injection h with h
    rw [Prod.mk.injEq, Prod.mk.injEq] at h
    intro i g hgi
    refine ⟨g, by rw [← h.2.1]; exact hgi, ?_⟩
    simp
  | cons p rest ih =>
    have hwfrest : WFOut prods st rest := fun r hr => hwf r (List.mem_cons_of_mem p hr)
    have hndrest : NodupRecipes prods rest := fun r hr => hnd r (List.mem_cons_of_mem p hr)
    obtain ⟨prod, hprod, hrec⟩ := hwf p (List.mem_cons_self p rest)
    unfold outflowLoop at h
    simp only [hprod] at h
    match hp : parse_value_br (some (req.qp p)) prod.name with
    | (a, e :: es) =>
      simp only [hp] at h
      intro i g hgi
      obtain ⟨g2, hg2, heq⟩ := ih st s2 sold hwfrest hndrest h i g hgi
      have hdem : productDemand prods req p i = 0 := by
        simp only [productDemand, hprod, hp]
      refine ⟨g2, hg2, ?_⟩
      rw [List.map_cons, List.sum_cons, hdem, heq]
      ring
    | (some q, []) =>
      simp only [hp] at h
      have hz : ¬ Dec.eqv q Dec.zero := parse_not_zero _ _ q hp
      rw [if_neg hz] at h
      obtain ⟨perrs, staged, hrl⟩ := recipeLoop_isOk st q prod.recipe hrec
      simp only [hrl] at h
      by_cases hpe : perrs ≠ []
      · exfalso
        rw [if_pos hpe] at h
        obtain ⟨errs0, s0, sold0, hrest⟩ := outflowLoop_isOk prods req rest st hwfrest
        simp only [hrest] at h
        injection h with h
        rw [Prod.mk.injEq] at h
        exact hpe (List.append_eq_nil.mp h.1).1
      · push_neg at hpe
        subst hpe
        rw [if_neg (by simp)] at h
        have hstaged := recipeLoop_all_staged st q prod.recipe staged hrl
        obtain ⟨errs0, s0, sold0, hrest⟩ := outflowLoop_isOk prods req rest
          (applyStaged st staged) (WFOut_applyStaged prods st staged rest hwfrest)
        simp only [hrest] at h
        injection h with h
        rw [Prod.mk.injEq, Prod.mk.injEq] at h
        obtain ⟨h1, h2, h3⟩ := h
        rw [h1] at hrest
        have hnd_p : (prod.recipe.map Prod.fst).Nodup :=
          hnd p (List.mem_cons_self p rest) prod hprod
        have hkeys : staged.map Prod.fst = prod.recipe.map Prod.fst := by
          rw [hstaged, List.map_map]
          rfl
        intro i g hgi
        by_cases hmem : i ∈ prod.recipe.map Prod.fst
        · obtain ⟨x, hxrec, hx1⟩ := List.mem_map.mp hmem
          have hqte : qteOf st i = g.qte := by
            unfold qteOf
            rw [hgi]
          have hsx : (i, Dec.sub (qteOf st i) (Dec.mul x.2 q)) ∈ staged := by
            rw [hstaged]
            refine List.mem_map.mpr ⟨x, hxrec, ?_⟩
            rw [hx1]
          have happ := applyStaged_mem_nodup staged st i _
            (by rw [hkeys]; exact hnd_p) hsx g hgi
          obtain ⟨g2, hg2, heq2⟩ := ih (applyStaged st staged) s0 sold0
            (WFOut_applyStaged prods st staged rest hwfrest) hndrest hrest i _ happ
          refine ⟨g2, by rw [← h2]; exact hg2, ?_⟩
          rw [heq2]
          have hdem : productDemand prods req p i = (Dec.mul x.2 q).toRat := by
            simp only [productDemand, hprod, hp]
            rw [filter_fst_single prod.recipe i x hnd_p hxrec hx1]
            simp
          rw [List.map_cons, List.sum_cons, hdem]
          show (Dec.sub (qteOf st i) (Dec.mul x.2 q)).toRat - _ = _
          rw [Dec.toRat_sub, hqte]
          ring
        · have hni : i ∉ staged.map Prod.fst := by
            rw [hkeys]
            exact hmem
          have happ : (applyStaged st staged).ing i = st.ing i :=
            applyStaged_not_mem staged st i hni
          obtain ⟨g2, hg2, heq2⟩ := ih (applyStaged st staged) s0 sold0
            (WFOut_applyStaged prods st staged rest hwfrest) hndrest hrest i g
            (by rw [happ]; exact hgi)
          refine ⟨g2, by rw [← h2]; exact hg2, ?_⟩
          rw [heq2]
          have hdem : productDemand prods req p i = 0 := by
            simp only [productDemand, hprod, hp]
            rw [filter_fst_nil prod.recipe i hmem]
            simp
          rw [List.map_cons, List.sum_cons, hdem]
          ring
    | (none, []) => exact absurd hp (parse_no_none_nil _ _)

lemma outflowLoop_append (prods : Nat → Option Product) (req : OutflowRequest)
    (l1 l2 : List Nat) (st : StockState) (e1 : List String) (s1 : StockState)
    (d1 : List OutflowLine) (h1 : outflowLoop prods req st l1 = .ok (e1, s1, d1))
    (e2 : List String) (s2 : StockState) (d2 : List OutflowLine)
    (h2 : outflowLoop prods req s1 l2 = .ok (e2, s2, d2)) :
    outflowLoop prods req st (l1 ++ l2) = .ok (e1 ++ e2, s2, d1 ++ d2) := by
  induction l1 generalizing st e1 s1 d1 with
  | nil =>
    unfold outflowLoop at h1
    injection h1 with h1
    rw [Prod.mk.injEq, Prod.mk.injEq] at h1
    obtain ⟨ha, hb, hc⟩ := h1
    rw [← ha, ← hc, List.nil_append, List.nil_append, List.nil_append, hb]
    exact h2
  | cons p ps ih =>
    unfold outflowLoop at h1
    have hgoal : (p :: ps) ++ l2 = p :: (ps ++ l2) := rfl
    rw [hgoal]
    split at h1
    · exact absurd h1 (by simp)
    · rename_i prod hprod
      split at h1
      · rename_i hpar
        have hih := ih st e1 s1 d1 h1 h2
        simp only [outflowLoop, hprod, hpar, hih]
      · rename_i q hpar
        split at h1
        · exact absurd h1 (by simp)
        · rename_i out perrs staged heq
          split at h1
          · rename_i hpe
            split at h1
            · exact absurd h1 (by simp)
            · rename_i out2 errs0 s0 sold0 hrest
              injection h1 with h1
              rw [Prod.mk.injEq, Prod.mk.injEq] at h1
              obtain ⟨ha, hb, hc⟩ := h1
              have h2b : outflowLoop prods req s0 l2 = .ok (e2, s2, d2) := by
                rw [hb]
                exact h2
              have hih := ih st errs0 s0 sold0 hrest h2b
              simp only [outflowLoop, hprod, hpar, heq, if_pos hpe, hih]
              rw [← ha, ← hc, List.append_assoc]
          · rename_i hpe
            split at h1
            · exact absurd h1 (by simp)
            · rename_i out2 errs0 s0 sold0 hrest
              injection h1 with h1
              rw [Prod.mk.injEq, Prod.mk.injEq] at h1
              obtain ⟨ha, hb, hc⟩ := h1
              have h2b : outflowLoop prods req s0 l2 = .ok (e2, s2, d2) := by
                rw [hb]
                exact h2
              have hih := ih (applyStaged st staged) errs0 s0 sold0 hrest h2b
              simp only [outflowLoop, hprod, hpar, heq, if_neg hpe, hih]
              rw [← ha, ← hc, List.cons_append]
      · exact absurd h1 (by simp)

lemma create_outflow_ok_inv (prods : Nat → Option Product) (st : StockState)
    (req : OutflowRequest) (user : String) (s2 : StockState) (mv : Movement)
    (sold : List OutflowLine)
    (h : create_outflow prods st req user = .ok (s2, mv, sold)) :
    outflowLoop prods req st req.products = .ok ([], s2, sold) := by
  unfold create_outflow at h
  split at h
  · exact absurd h (by simp)
  · split at h
    · exact absurd h (by simp)
    · rename_i out errs s0 sold0 hloop
      split at h
      · exact absurd h (by simp)
      · rename_i herrs
        push_neg at herrs
        injection h with h
        rw [Prod.mk.injEq, Prod.mk.injEq] at h
        obtain ⟨ha, _, hc⟩ := h
        rw [herrs, ha, hc] at hloop
        exact hloop

lemma create_outflow_error_of_errs (prods : Nat → Option Product)
    (st : StockState) (req : OutflowRequest) (user : String) (errs : List String)
    (s2 : StockState) (sold : List OutflowLine) (hne : req.products ≠ [])
    (hloop : outflowLoop prods req st req.products = .ok (errs, s2, sold))
    (herr : errs ≠ []) :
    create_outflow prods st req user = .error (.validation errs) := by
  unfold create_outflow
  rw [if_neg hne]
  simp only [hloop]
  rw [if_pos herr]

lemma create_inflow_ok_inv (st : StockState) (req : InflowRequest)
    (user : String) (s2 : StockState) (mv : Movement) (lines : List InflowLine)
    (h : create_inflow st req user = .ok (s2, mv, lines)) :
    ∃ staged, inflowLoop st req req.ingredients = .ok ([], staged) ∧
      s2 = applyStaged st (staged.map (fun x => (x.id, x.newQte))) ∧
      mv = ⟨user, (staged.map (fun x => x.price)).foldl Dec.add Dec.zero, "in",
        req.commentary⟩ ∧
      lines = staged.map (fun x => ⟨x.name, x.qv, x.price, x.measure⟩) := by
  unfold create_inflow at h
  split at h
  · exact absurd h (by simp)
  · split at h
    · exact absurd h (by simp)
    · rename_i out errs staged hloop
      split at h
      · exact absurd h (by simp)
      · rename_i herrs
        push_neg at herrs
        injection h with h
        rw [Prod.mk.injEq, Prod.mk.injEq] at h
        obtain ⟨ha, hb, hc⟩ := h
        rw [herrs] at hloop
        exact ⟨staged, hloop, ha.symm, hb.symm, hc.symm⟩

lemma create_inflow_error_of_errs (st : StockState) (req : InflowRequest)
    (user : String) (errs : List String) (staged : List InflowStaged)
    (hne : req.ingredients ≠ [])
    (hloop : inflowLoop st req req.ingredients = .ok (errs, staged))
    (herr : errs ≠ []) :
    create_inflow st req user = .error (.validation errs) := by
  unfold create_inflow
  rw [if_neg hne]
  simp only [hloop]
  rw [if_pos herr]

/-- C7 (code bug): the claim says the parser, for every input string,
either returns the exact parsed decimal or returns an error — never
raising — when the cleaned string is not a valid decimal, the input is
absent or non-string, or the value is not positive.  The code breaks
this for NaN input: `Decimal("nan")` constructs successfully and the
`value <= 0` comparison at services.py line 94 — outside the `try` —
raises an uncaught `decimal.InvalidOperation`, contradicting the
function's own docstring ("(None, [error_message]) if failed") and the
spec's "never raises" rule.  The same evaluation of the complete
embedding shows the claim's stated behaviour elsewhere: "1.234,56"
parses to exactly 1234.56; "0", "-5,00", "abc", "" and a non-string
input fail with returned error lists; and constructor-accepted forms
with whitespace or underscores parse successfully while "Infinity" is
even returned as a success value. -/
theorem parse_value_br_nan_raises :
    pyDecParse (cleanBR "nan") = some PyDec.nan ∧
    parse_value_br_full (some "nan") "n" = PyParse.raise ∧
    parse_value_br_full (some " -sNaN12 ") "n" = PyParse.raise ∧
    parse_value_br_full (some "1.234,56") "n" =
      .ret (some (PyDec.fin ⟨123456, 2⟩)) [] ∧
    Dec.toRat ⟨123456, 2⟩ = 1234.56 ∧
    parse_value_br_full (some "0") "n" = .ret none [nonPositiveMsg "n"] ∧
    parse_value_br_full (some "-5,00") "n" = .ret none [nonPositiveMsg "n"] ∧
    parse_value_br_full (some "abc") "n" = .ret none [invalidValueMsg "n"] ∧
    parse_value_br_full (some "") "n" = .ret none [invalidValueMsg "n"] ∧
    parse_value_br_full none "n" = .ret none [invalidValueMsg "n"] ∧
    parse_value_br_full (some " 5") "n" = .ret (some (PyDec.fin ⟨5, 0⟩)) [] ∧
    parse_value_br_full (some "1_000") "n" =
      .ret (some (PyDec.fin ⟨1000, 0⟩)) [] ∧
    parse_value_br_full (some "Infinity") "n" =
      .ret (some (PyDec.inf false)) [] :=
  ⟨by decide, by decide, by decide, by decide, by norm_num [Dec.toRat], by decide,
    by decide, by decide, by decide, by decide, by decide, by decide, by decide⟩

/-- C9: convert_measures is the identity on the three same-unit pairs,
divides by 1000 from grams to kilograms (1000 g = 1 kg), multiplies by
1000 from kilograms to grams (2 kg = 2000 g), and yields the lookup
failure (KeyError) on every unmapped pair. -/
theorem convert_measures_spec :
    (∀ x, convert_measures x "g" "g" = some x ∧
      convert_measures x "kg" "kg" = some x ∧
      convert_measures x "unit" "unit" = some x)
    ∧ (convert_measures ⟨1000, 0⟩ "g" "kg" = some ⟨1000, 3⟩ ∧
      Dec.toRat ⟨1000, 3⟩ = 1)
    ∧ (convert_measures ⟨2, 0⟩ "kg" "g" = some ⟨2000, 0⟩ ∧
      Dec.toRat ⟨2000, 0⟩ = 2000)
    ∧ (∀ x o d, ¬ supportedPair o d → convert_measures x o d = none) := by
  refine ⟨fun x => ⟨rfl, rfl, rfl⟩, ⟨by decide, by norm_num [Dec.toRat]⟩,
    ⟨by decide, by norm_num [Dec.toRat]⟩, ?_⟩
  intro x o d hs
  unfold convert_measures
  split <;> first
    | rfl
    | exact absurd (by decide) hs

/-- Witness for C9: the pair (unit, g) is outside the table and fails. -/
theorem convert_measures_spec_witness :
    ¬ supportedPair "unit" "g" ∧ convert_measures ⟨7, 0⟩ "unit" "g" = none :=
  ⟨by decide, convert_measures_spec.2.2.2 ⟨7, 0⟩ "unit" "g" (by decide)⟩

/-- C8: format_period succeeds exactly when both strings parse as
calendar dates, the start is not after the end, and the day difference
is under 31; otherwise it fails with the invalid-date, negative-period
or period-too-long message, and on the three concrete example inputs it
behaves as the spec states. -/
theorem format_period_spec :
    (∀ s e ds de, parseDate s = some ds → parseDate e = some de →
      dayNumber ds ≤ dayNumber de → dayNumber de - dayNumber ds < 31 →
      format_period s e = .ok (ds, de))
    ∧ (∀ s e, (parseDate s = none ∨ parseDate e = none) →
      format_period s e = .error invalidDateMsg)
    ∧ (∀ s e ds de, parseDate s = some ds → parseDate e = some de →
      dayNumber de < dayNumber ds → format_period s e = .error negativePeriodMsg)
    ∧ (∀ s e ds de, parseDate s = some ds → parseDate e = some de →
      dayNumber ds ≤ dayNumber de → 31 ≤ dayNumber de - dayNumber ds →
      format_period s e = .error periodTooLongMsg)
    ∧ format_period "2024-01-01" "2024-01-31" = .ok (⟨2024, 1, 1⟩, ⟨2024, 1, 31⟩)
    ∧ format_period "2024-01-01" "2024-02-01" = .error periodTooLongMsg
    ∧ format_period "2024-02-01" "2024-01-01" = .error negativePeriodMsg := by
  refine ⟨?_, ?_, ?_, ?_, by decide, by decide, by decide⟩
  · intro s e ds de hs he h1 h2
    simp only [format_period, hs, he]
    rw [if_neg (not_lt.mpr h1), if_neg (not_le.mpr h2)]
  · intro s e hor
    rcases hor with h | h
    · simp only [format_period, h]
    · match hps : parseDate s with
      | none => simp only [format_period, hps]
      | some ds => simp only [format_period, hps, h]
  · intro s e ds de hs he h1
    simp only [format_period, hs, he]
    rw [if_pos h1]
  · intro s e ds de hs he h1 h2
    simp only [format_period, hs, he]
    rw [if_neg (not_lt.mpr h1), if_pos h2]

/-- Witness for C8: a concrete 16-day March period parses, is ordered,
spans under 31 days, and the validator returns it. -/
theorem format_period_spec_witness :
    parseDate "2024-03-05" = some ⟨2024, 3, 5⟩ ∧
    parseDate "2024-03-20" = some ⟨2024, 3, 20⟩ ∧
    dayNumber ⟨2024, 3, 5⟩ ≤ dayNumber ⟨2024, 3, 20⟩ ∧
    dayNumber ⟨2024, 3, 20⟩ - dayNumber ⟨2024, 3, 5⟩ < 31 ∧
    format_period "2024-03-05" "2024-03-20" = .ok (⟨2024, 3, 5⟩, ⟨2024, 3, 20⟩) :=
  ⟨by decide, by decide, by decide, by decide,
    format_period_spec.1 "2024-03-05" "2024-03-20" ⟨2024, 3, 5⟩ ⟨2024, 3, 20⟩
      (by decide) (by decide) (by decide) (by decide)⟩

/-- C2 (code bug): an outflow batch whose only product has the
unparsable quantity "abc" is claimed to fail with the recorded parse
error; the code instead drops the recorded message (the `continue` after
the parse check skips the `errors.extend` at the bottom of the product
loop), commits a Movement of direction "out" with value 0 and no
MovementOutflow lines, and leaves the stock at 3. -/
theorem create_outflow_parse_error_commits :
    (create_outflow prodsPizza stCheese reqAbc "u").toOption.map
        (fun x => (x.2.1.type, x.2.1.value, x.2.2, (x.1.ing 1).map (fun g => g.qte))) =
      some ("out", Dec.zero, ([] : List OutflowLine), some ⟨3, 0⟩) := by decide

/-- Counterexample for C6: on the concrete 500 g inflow into a
kilogram-stored ingredient, the created line stores quantity 500 with
unit "g" (the parsed quantity and the request's unit), while the
converted quantity actually added to stock is 0.5 in "kg" — so the line
does not record the converted quantity or the unit used for the
addition. -/
theorem inflow_line_records_request_units_cex :
    (create_inflow stFlour reqFlour "u").toOption.map (fun x => x.2.2) =
      some [⟨"Flour", ⟨500, 0⟩, ⟨250, 2⟩, "g"⟩] ∧
    convert_measures ⟨500, 0⟩ "g" "kg" = some ⟨500, 3⟩ ∧
    ¬ Dec.eqv ⟨500, 0⟩ ⟨500, 3⟩ ∧
    "g" ≠ "kg" :=
  ⟨by decide, by decide, by decide, by decide⟩

/-- C1: when any product of an outflow batch has a recipe item whose
requirement (recipe quantity times parsed sold quantity) exceeds that
ingredient's stock at the point the product is processed, the whole
call raises a ValidationError containing the insufficient-stock message
naming the ingredient, and the transaction commits nothing: the state
is unchanged and no Movement or line rows exist.  The batch is split as
`pre ++ p :: post`; earlier products may have validated and staged
writes (`hpre`), later ones are arbitrary well-formed products. -/
theorem create_outflow_insufficient_aborts_batch
    (prods : Nat → Option Product) (st : StockState) (req : OutflowRequest)
    (user : String) (pre post : List Nat) (p : Nat) (e0 : List String)
    (sp : StockState) (d0 : List OutflowLine) (prod : Product) (q : Dec)
    (i0 : Nat) (rq : Dec) (g0 : Ingredient)
    (hsplit : req.products = pre ++ p :: post)
    (hpre : outflowLoop prods req st pre = .ok (e0, sp, d0))
    (hprod : prods p = some prod)
    (hparse : parse_value_br (some (req.qp p)) prod.name = (some q, []))
    (hitem : (i0, rq) ∈ prod.recipe)
    (hing : sp.ing i0 = some g0)
    (hinsuf : Dec.lt (Dec.sub g0.qte (Dec.mul rq q)) Dec.zero)
    (hwfr : ∀ x ∈ prod.recipe, ingExists sp x.1)
    (hwfpost : WFOut prods sp post) :
    ∃ msgs, create_outflow prods st req user = .error (.validation msgs) ∧
      insufficientMsg g0.name ∈ msgs ∧
      committed st (create_outflow prods st req user) = st := by
  obtain ⟨perrs, staged, hrl⟩ := recipeLoop_isOk sp q prod.recipe hwfr
  have hmem : insufficientMsg g0.name ∈ perrs :=
    recipeLoop_insufficient sp q prod.recipe i0 rq g0 hitem hing hinsuf perrs staged hrl
  have hpe : perrs ≠ [] := by
    intro c
    rw [c] at hmem
    simp at hmem
  have hz : ¬ Dec.eqv q Dec.zero := parse_not_zero _ _ q hparse
  obtain ⟨errs1, s1, sold1, hpost⟩ := outflowLoop_isOk prods req post sp hwfpost
  have hstep : outflowLoop prods req sp (p :: post) = .ok (perrs ++ errs1, s1, sold1) := by
    simp only [outflowLoop, hprod, hparse, if_neg hz, hrl, if_pos hpe, hpost]
  have hfull : outflowLoop prods req st (pre ++ p :: post) =
      .ok (e0 ++ (perrs ++ errs1), s1, d0 ++ sold1) :=
    outflowLoop_append prods req pre (p :: post) st e0 sp d0 hpre _ _ _ hstep
  have hne : req.products ≠ [] := by
    rw [hsplit]
    simp
  have herrne : e0 ++ (perrs ++ errs1) ≠ [] := by
    intro c
    exact hpe (List.append_eq_nil.mp (List.append_eq_nil.mp c).2).1
  have hco : create_outflow prods st req user =
      .error (.validation (e0 ++ (perrs ++ errs1))) := by
    refine create_outflow_error_of_errs prods st req user _ s1 (d0 ++ sold1) hne ?_ herrne
    rw [hsplit]
    exact hfull
  refine ⟨e0 ++ (perrs ++ errs1), hco, ?_, ?_⟩
  · exact List.mem_append.mpr (Or.inr (List.mem_append.mpr (Or.inl hmem)))
  · rw [hco]
    rfl

/-- Witness for C1: the spec's concrete scenario — Pizza needs 2 Cheese
per sale, stock is 3, selling 2 needs 4 — fails with the message naming
Cheese and commits nothing. -/
theorem create_outflow_insufficient_aborts_batch_witness :
    ∃ msgs, create_outflow prodsPizza stCheese reqSellTwo "u" =
        .error (.validation msgs) ∧
      insufficientMsg "Cheese" ∈ msgs ∧
      committed stCheese (create_outflow prodsPizza stCheese reqSellTwo "u") =
        stCheese := by
  refine create_outflow_insufficient_aborts_batch prodsPizza stCheese reqSellTwo "u"
    [] [] 1 [] stCheese [] ⟨"Pizza", ⟨10, 0⟩, [(1, ⟨2, 0⟩)]⟩ ⟨2, 0⟩ 1 ⟨2, 0⟩
    ⟨"Cheese", "unit", ⟨3, 0⟩⟩ rfl rfl rfl (by decide) (by decide) rfl (by decide)
    ?_ ?_
  · intro x hx
    simp at hx
    rw [hx]
    exact ⟨⟨"Cheese", "unit", ⟨3, 0⟩⟩, rfl⟩
  · intro r hr
    simp at hr

/-- C3: when any inflow line's quantity or price fails to parse, the
call collects the parse errors of every line, in line order, and raises
a ValidationError carrying exactly that concatenation — an error
outcome of the transaction, so nothing is committed. -/
theorem create_inflow_collects_parse_errors
    (st : StockState) (req : InflowRequest) (user : String)
    (hwf : WFIn st req req.ingredients)
    (hbad : ∃ i ∈ req.ingredients, lineErrors st req i ≠ []) :
    create_inflow st req user =
      .error (.validation ((req.ingredients.map (lineErrors st req)).flatten)) := by
  obtain ⟨staged, hloop⟩ := inflowLoop_errs st req req.ingredients hwf
  obtain ⟨i, hi, hne⟩ := hbad
  have hne2 : (req.ingredients.map (lineErrors st req)).flatten ≠ [] := by
    intro c
    rw [List.flatten_eq_nil_iff] at c
    exact hne (c _ (List.mem_map_of_mem _ hi))
  have hne0 : req.ingredients ≠ [] := by
    intro c
    rw [c] at hi
    simp at hi
  exact create_inflow_error_of_errs st req user _ staged hne0 hloop hne2

/-- Witness for C3: a one-line inflow whose quantity "abc" fails to
parse is rejected with exactly that line's invalid-value message. -/
theorem create_inflow_collects_parse_errors_witness :
    lineErrors stFlour reqBadInflow 1 ≠ [] ∧
    create_inflow stFlour reqBadInflow "u" =
      .error (.validation
        ((reqBadInflow.ingredients.map (lineErrors stFlour reqBadInflow)).flatten)) := by
  refine ⟨by decide, ?_⟩
  refine create_inflow_collects_parse_errors stFlour reqBadInflow "u" ?_ ⟨1, by decide, by decide⟩
  intro i hi
  simp only [reqBadInflow] at hi
  simp at hi
  rw [hi]
  exact ⟨⟨"Flour", "kg", ⟨10, 0⟩⟩, rfl, Or.inl (by decide)⟩

/-- C4: an inflow with a single valid selection converts the parsed
quantity from the request's unit into the ingredient's stored unit,
adds the converted amount to that ingredient's stock (all other rows
unchanged), and commits exactly one Movement of direction "in" whose
value is the submitted price, with exactly one inflow line. -/
theorem create_inflow_single_line_ok
    (st : StockState) (req : InflowRequest) (user : String) (i : Nat)
    (g : Ingredient) (qv pv cv : Dec)
    (hids : req.ingredients = [i])
    (hg : st.ing i = some g)
    (hq : parse_value_br (some (req.q i)) g.name = (some qv, []))
    (hp : parse_value_br (some (req.p i)) g.name = (some pv, []))
    (hcv : convert_measures qv (req.m i) g.measure = some cv) :
    ∃ s2, create_inflow st req user =
        .ok (s2, ⟨user, Dec.add Dec.zero pv, "in", req.commentary⟩,
          [⟨g.name, qv, pv, req.m i⟩]) ∧
      (∃ g2, s2.ing i = some g2 ∧ g2.qte.toRat = g.qte.toRat + cv.toRat) ∧
      (∀ j, j ≠ i → s2.ing j = st.ing j) ∧
      (Dec.add Dec.zero pv).toRat = pv.toRat := by
  have hcond : ¬ ((parse_value_br (some (req.q i)) g.name).2 ≠ [] ∨
      (parse_value_br (some (req.p i)) g.name).2 ≠ []) := by
    rw [hq, hp]
    simp
  have hloop : inflowLoop st req [i] =
      .ok ([], [⟨i, Dec.add g.qte cv, g.name, qv, pv, req.m i⟩]) := by
    simp only [inflowLoop, hg, if_neg hcond, hq, hp, hcv]
    rw [if_neg (by simp)]
  refine ⟨applyStaged st [(i, Dec.add g.qte cv)], ?_, ?_, ?_, ?_⟩
  · unfold create_inflow
    rw [hids, if_neg (by simp)]
    simp only [hloop]
    rw [if_neg (by simp)]
    rfl
  · refine ⟨{ g with qte := Dec.add g.qte cv }, ?_, ?_⟩
    · have hstep : applyStaged st [(i, Dec.add g.qte cv)] =
          updateQte st i (Dec.add g.qte cv) := rfl
      rw [hstep, updateQte_ing, if_pos rfl, hg]
      rfl
    · simp only
      rw [Dec.toRat_add]
  · intro j hj
    have hstep : applyStaged st [(i, Dec.add g.qte cv)] =
        updateQte st i (Dec.add g.qte cv) := rfl
    rw [hstep, updateQte_ing, if_neg hj]
  · rw [Dec.toRat_add, Dec.toRat_zero]
    ring

/-- Witness for C4: the spec's example — stock 10 kg plus 500 g at
price 2,50 gives stock 10 + 0.5 = 10.5 kg, one "in" Movement of value
2.50 and exactly one line. -/
theorem create_inflow_single_line_ok_witness :
    (∃ s2, create_inflow stFlour reqFlour "u" =
        .ok (s2, ⟨"u", Dec.add Dec.zero ⟨250, 2⟩, "in", "c"⟩,
          [⟨"Flour", ⟨500, 0⟩, ⟨250, 2⟩, "g"⟩]) ∧
      (∃ g2, s2.ing 1 = some g2 ∧
        g2.qte.toRat = Dec.toRat ⟨10, 0⟩ + Dec.toRat ⟨500, 3⟩) ∧
      (∀ j, j ≠ 1 → s2.ing j = stFlour.ing j) ∧
      (Dec.add Dec.zero ⟨250, 2⟩).toRat = Dec.toRat ⟨250, 2⟩) ∧
    Dec.toRat ⟨10, 0⟩ + Dec.toRat ⟨500, 3⟩ = 21 / 2 :=
  ⟨create_inflow_single_line_ok stFlour reqFlour "u" 1 ⟨"Flour", "kg", ⟨10, 0⟩⟩
    ⟨500, 0⟩ ⟨250, 2⟩ ⟨500, 3⟩ rfl rfl (by decide) (by decide) (by decide),
    by norm_num [Dec.toRat]⟩

/-- C6 as amended: each created inflow line records the ingredient's
name, the quantity as parsed from the request (before unit conversion),
the submitted price, and the request's unit of measure — not the
converted quantity in the ingredient's stored unit. -/
theorem inflow_lines_record_parsed_quantity
    (st : StockState) (req : InflowRequest) (user : String)
    (s2 : StockState) (mv : Movement) (lines : List InflowLine)
    (h : create_inflow st req user = .ok (s2, mv, lines)) :
    lines.map some = req.ingredients.map (lineOf st req) := by
  obtain ⟨staged, hloop, _, _, hlines⟩ := create_inflow_ok_inv st req user s2 mv lines h
  rw [hlines, List.map_map]
  exact inflowLoop_lines st req req.ingredients staged hloop

/-- Witness for the amended C6: the lines committed by the concrete
500 g Flour inflow are exactly the parsed-quantity records of the
request. -/
theorem inflow_lines_record_parsed_quantity_witness :
    ∃ lines, (create_inflow stFlour reqFlour "u").toOption.map (fun x => x.2.2) =
        some lines ∧
      lines.map some = reqFlour.ingredients.map (lineOf stFlour reqFlour) := by
  cases hE : create_inflow stFlour reqFlour "u" with
  | error e =>
    have hok : (create_inflow stFlour reqFlour "u").isOk = true := by decide
    rw [hE] at hok
    simp [Except.isOk, Except.toBool] at hok
  | ok out =>
    obtain ⟨s2, mv, lines⟩ := out
    exact ⟨lines, rfl,
      inflow_lines_record_parsed_quantity stFlour reqFlour "u" s2 mv lines hE⟩

/-- C5: from any state in which all ingredient quantities are
non-negative, every state committed by a successful create_inflow or
create_outflow call again has all quantities non-negative: inflow adds
a conversion of a positive parsed quantity, and outflow only stages a
reduction whose remainder is non-negative. -/
theorem services_preserve_nonneg_stock (st : StockState) (hst : Nonneg st) :
    (∀ req user s2 mv lines,
      create_inflow st req user = .ok (s2, mv, lines) → Nonneg s2)
    ∧ (∀ prods req user s2 mv sold,
      create_outflow prods st req user = .ok (s2, mv, sold) → Nonneg s2) := by
  constructor
  · intro req user s2 mv lines h
    obtain ⟨staged, hloop, hs2, _, _⟩ := create_inflow_ok_inv st req user s2 mv lines h
    have hnn := inflowLoop_staged_pos st req req.ingredients [] staged hst hloop
    rw [hs2]
    refine applyStaged_nonneg _ st hst ?_
    intro x hx
    obtain ⟨y, hy, hxy⟩ := List.mem_map.mp hx
    rw [← hxy]
    exact hnn y hy
  · intro prods req user s2 mv sold h
    have hloop := create_outflow_ok_inv prods st req user s2 mv sold h
    exact outflowLoop_nonneg prods req req.products st [] s2 sold hst hloop

/-- Witness for C5: the concrete Flour inflow starts from a
non-negative state and the committed state is again non-negative. -/
theorem services_preserve_nonneg_stock_witness :
    Nonneg stFlour ∧
      Nonneg (committed stFlour (create_inflow stFlour reqFlour "u")) := by
  have h0 : Nonneg stFlour := by
    intro i g hg
    have hg2 : (if i = 1 then some (⟨"Flour", "kg", ⟨10, 0⟩⟩ : Ingredient)
        else none) = some g := hg
    by_cases hi : i = 1
    · rw [if_pos hi] at hg2
      injection hg2 with hg2
      rw [← hg2]
      norm_num [Dec.toRat]
    · rw [if_neg hi] at hg2
      exact absurd hg2 (by simp)
  refine ⟨h0, ?_⟩
  cases hE : create_inflow stFlour reqFlour "u" with
  | error e =>
    have hok : (create_inflow stFlour reqFlour "u").isOk = true := by decide
    rw [hE] at hok
    simp [Except.isOk, Except.toBool] at hok
  | ok out =>
    obtain ⟨s2, mv, lines⟩ := out
    show Nonneg (committed stFlour (Except.ok (s2, mv, lines)))
    exact (services_preserve_nonneg_stock stFlour h0).1 reqFlour "u" s2 mv lines hE

/-- C10: a fully validated product's bulk_update is issued inside the
transaction before the next product is processed, so each later
product's stock check reads the already-reduced quantities; hence a
batch that succeeds has, for every ingredient, final stock equal to the
starting stock minus the cumulative demand of all products, and that
cumulative demand never exceeds the starting stock. -/
theorem create_outflow_sequential_demand
    (prods : Nat → Option Product) (st : StockState) (req : OutflowRequest)
    (user : String) (s2 : StockState) (mv : Movement) (sold : List OutflowLine)
    (hwf : WFOut prods st req.products) (hnd : NodupRecipes prods req.products)
    (hst : Nonneg st)
    (hok : create_outflow prods st req user = .ok (s2, mv, sold)) :
    ∀ i g, st.ing i = some g → ∃ g2, s2.ing i = some g2 ∧
      g2.qte.toRat = g.qte.toRat - outflowDemand prods req i ∧
      outflowDemand prods req i ≤ g.qte.toRat := by
  have hloop := create_outflow_ok_inv prods st req user s2 mv sold hok
  have hnn : Nonneg s2 := outflowLoop_nonneg prods req req.products st [] s2 sold hst hloop
  intro i g hgi
  obtain ⟨g2, hg2, heq⟩ :=
    outflowLoop_qte prods req req.products st s2 sold hwf hnd hloop i g hgi
  have h2 := hnn i g2 hg2
  refine ⟨g2, hg2, ?_, ?_⟩
  · unfold outflowDemand
    exact heq
  · unfold outflowDemand
    rw [heq] at h2
    linarith

/-- Witness for C10: two products drawing 6 and 4 from a shared
ingredient with stock 10 — the second check runs against the stock
already reduced to 4, the batch succeeds, and the cumulative demand 10
is within the starting stock. -/
theorem create_outflow_sequential_demand_witness :
    outflowDemand prodsShared reqShared 1 ≤ Dec.toRat ⟨10, 0⟩ := by
  have hst : Nonneg stShared := by
    intro i g hg
    have hg2 : (if i = 1 then some (⟨"Dough", "g", ⟨10, 0⟩⟩ : Ingredient)
        else none) = some g := hg
    by_cases hi : i = 1
    · rw [if_pos hi] at hg2
      injection hg2 with hg2
      rw [← hg2]
      norm_num [Dec.toRat]
    · rw [if_neg hi] at hg2
      exact absurd hg2 (by simp)
  have hwf : WFOut prodsShared stShared reqShared.products := by
    intro p hp
    have hp2 : p = 1 ∨ p = 2 := by
      have : p ∈ [1, 2] := hp
      simpa using this
    rcases hp2 with h | h
    · subst h
      refine ⟨⟨"A", ⟨5, 0⟩, [(1, ⟨6, 0⟩)]⟩, rfl, ?_⟩
      intro x hx
      have : x = (1, (⟨6, 0⟩ : Dec)) := by simpa using hx
      rw [this]
      exact ⟨⟨"Dough", "g", ⟨10, 0⟩⟩, rfl⟩
    · subst h
      refine ⟨⟨"B", ⟨4, 0⟩, [(1, ⟨4, 0⟩)]⟩, rfl, ?_⟩
      intro x hx
      have : x = (1, (⟨4, 0⟩ : Dec)) := by simpa using hx
      rw [this]
      exact ⟨⟨"Dough", "g", ⟨10, 0⟩⟩, rfl⟩
  have hnd : NodupRecipes prodsShared reqShared.products := by
    intro p hp prod hprod
    have hp2 : p = 1 ∨ p = 2 := by
      have : p ∈ [1, 2] := hp
      simpa using this
    rcases hp2 with h | h
    · subst h
      injection hprod with hprod
      rw [← hprod]
      decide
    · subst h
      injection hprod with hprod
      rw [← hprod]
      decide
  cases hE : create_outflow prodsShared stShared reqShared "u" with
  | error e =>
    have hok : (create_outflow prodsShared stShared reqShared "u").isOk = true := by
      decide
    rw [hE] at hok
    simp [Except.isOk, Except.toBool] at hok
  | ok out =>
    obtain ⟨s2, mv, sold⟩ := out
    obtain ⟨g2, _, _, hle⟩ := create_outflow_sequential_demand prodsShared stShared
      reqShared "u" s2 mv sold hwf hnd hst hE 1 ⟨"Dough", "g", ⟨10, 0⟩⟩ rfl
    exact hle

end Stock21
